import Mathlib

/-!
Verification of the tidytcells nomenclature-standardisation engine.

The repository ships only its documentation, notes and build configuration
alongside the specification; the resolver itself (the tidytcells Python
package sources) is not part of the material, so the core engine is
modelled here from the specification: the data model of section 3
(GeneEntry entries of a Reference Store, SynonymMap, allele tiers with
functionality leaves), the lexical normalizer of section 4.1, the tiered
Resolver state machine of section 4.3, the Precision Reducer of
section 4.4, and the per-category standardise wrappers described in the
README and usage documentation. All definitions are executable.
-/

/-- Modelled from the spec: a structured reference-store entry. The Python
reference data (missing from the available sources) encodes genes as
hierarchical maps from gene name through allele-tier fields down to a
functionality leaf (TR/IG) or empty node (MH); here each node of that tree
is one flat entry carrying the gene name, the list of allele-tier fields
leading to the node, and the functionality recorded at the node, if any. -/
structure GeneEntry where
  gene : String
  tiers : List String
  functionality : Option String
deriving DecidableEq, Repr

/-- Modelled from the spec: render a structured entry back into its
canonical string form, e.g. gene "HLA-B" with tiers 07, 02 renders as
HLA-B*07:02, and an entry with no tiers renders as the bare gene name. -/
def GeneEntry.render (e : GeneEntry) : String :=
  match e.tiers with
  | [] => e.gene
  | t :: ts => e.gene ++ "*" ++ t ++ String.join (ts.map (fun u => ":" ++ u))

/-- Modelled from the spec: render the allele tiers truncated away by the
Precision Reducer as a remainder string, e.g. tiers 01, 01 render as
the string :01:01. -/
def renderRemainder (ts : List String) : String :=
  String.join (ts.map (fun u => ":" ++ u))

/-- Modelled from the spec: the immutable Reference Store slice for one
species and category — canonical entries, the SynonymMap from
deprecated/alias strings to candidate canonical gene symbols (ambiguous
entries preserved as multi-candidate lists), and the category's ordered
heuristic repair rules. -/
structure ReferenceStore where
  entries : List GeneEntry
  synonyms : List (String × List String)
  repairs : List (String → Option String)

/-- Modelled from the spec (section 4.1): the Lexical Normalizer uppercases
the input and strips whitespace; it never fails. -/
def lexNormalize (s : String) : String :=
  ((s.data.filter (fun c => c != ' ')).map Char.toUpper).asString

/-- Modelled from the spec: exact-match validation — find the first
reference-store entry whose rendered canonical form equals the given
string. -/
def findExact (store : ReferenceStore) (s : String) : Option GeneEntry :=
  store.entries.find? (fun e => e.render == s)

/-- Modelled from the spec: SynonymMap lookup, returning the candidate
canonical symbols recorded for a deprecated/alias string. -/
def lookupSyn (syns : List (String × List String)) (s : String) : Option (List String) :=
  (syns.find? (fun q => q.1 == s)).map Prod.snd

/-- Modelled from the spec (section 4.3 tier 3): apply the ordered repair
rules to the normalized string; the first rule whose rewritten output
validates against the Reference Store wins, and no rule is applied twice. -/
def tryRepairs : List (String → Option String) → ReferenceStore → String → Option GeneEntry
  | [], _, _ => none
  | r :: rs, store, s =>
    match r s with
    | none => tryRepairs rs store s
    | some t =>
      match findExact store t with
      | some e => some e
      | none => tryRepairs rs store s

/-- Modelled from the spec (section 4.3): the terminal states of the
Resolver state machine, each successful state carrying the validated
reference-store entry. -/
inductive Resolution where
  | exactMatched (e : GeneEntry)
  | synonymMatched (e : GeneEntry)
  | heuristicallyRepaired (e : GeneEntry)
  | ambiguousSynonym (candidates : List String)
  | unresolved
deriving DecidableEq, Repr

/-- Modelled from the spec: the repair tier as a Resolution. -/
def resolveRepairTier (store : ReferenceStore) (n : String) : Resolution :=
  match tryRepairs store.repairs store n with
  | some e => Resolution.heuristicallyRepaired e
  | none => Resolution.unresolved

/-- Modelled from the spec (section 4.3): the multi-tier Resolver. Tiers
are attempted strictly in order, short-circuiting on first success:
exact match against the Reference Store; synonym/deprecated-name
translation (a unique candidate is re-validated by exact match, an
ambiguous multi-candidate entry is a distinct terminal outcome never
resolved arbitrarily); heuristic repair re-validated by exact match;
otherwise unresolved. -/
def resolve (store : ReferenceStore) (raw : String) : Resolution :=
  match findExact store (lexNormalize raw) with
  | some e => Resolution.exactMatched e
  | none =>
    match lookupSyn store.synonyms (lexNormalize raw) with
    | some (c :: []) =>
      match findExact store c with
      | some e => Resolution.synonymMatched e
      | none => resolveRepairTier store (lexNormalize raw)
    | some (c1 :: c2 :: rest) => Resolution.ambiguousSynonym (c1 :: c2 :: rest)
    | _ => resolveRepairTier store (lexNormalize raw)

/-- The validated entry carried by a successful Resolution, if any. -/
def Resolution.entry? : Resolution → Option GeneEntry
  | Resolution.exactMatched e => some e
  | Resolution.synonymMatched e => some e
  | Resolution.heuristicallyRepaired e => some e
  | _ => none

/-- Modelled from the spec: the accepted functionality set for the
functional-only gate — only alleles recorded as functional (F) pass. -/
def acceptedFunctionality (f : Option String) : Bool :=
  f == some "F"

/-- Modelled from the spec (section 4.3, validation-only gate): a resolved
allele-level entry passes when its recorded functionality is accepted; a
gene-level entry passes when some allele of that gene has an accepted
functionality. -/
def functionalOk (store : ReferenceStore) (e : GeneEntry) : Bool :=
  if e.tiers.isEmpty then
    store.entries.any
      (fun e2 => e2.gene == e.gene && !e2.tiers.isEmpty && acceptedFunctionality e2.functionality)
  else acceptedFunctionality e.functionality

/-- Modelled from the spec: the requested precision level of the
Precision Reducer. -/
inductive Precision where
  | gene
  | protein
  | allele
deriving DecidableEq, Repr

/-- Modelled from the spec: TR-category precision reduction — gene
precision drops the allele tiers, otherwise the full symbol is kept
(no split is offered for TR). -/
def trTruncate (p : Precision) (e : GeneEntry) : GeneEntry :=
  match p with
  | Precision.gene => GeneEntry.mk e.gene [] e.functionality
  | _ => e

/-- Modelled from the spec and docs: the core TR-category standardisation
on one Reference Store slice — resolve, apply the optional functional-only
gate, then render at the requested precision; unresolved inputs map to
the none outcome. -/
def trStandardizeCore (store : ReferenceStore) (g : String)
    (enforceFunctional : Bool) (p : Precision) : Option String :=
  match (resolve store g).entry? with
  | none => none
  | some e =>
    if enforceFunctional && !functionalOk store e then none
    else some ((trTruncate p e).render)

/-- Modelled from the spec and docs: the outcome of MH-category
standardisation — a plain canonical symbol, a split result of a primary
symbol plus a remainder of truncated allele tiers, the unresolved
outcome, or the unchanged echo of the input for an unsupported species. -/
inductive MhResult where
  | sym (s : String)
  | split (primary remainder : String)
  | failed
  | echoed (s : String)
deriving DecidableEq, Repr

/-- Modelled from the spec (section 4.4): MH-category precision reduction.
Protein precision keeps the first two allele tiers; when deeper tiers
exist the result is split into a primary symbol and a remainder string
rather than simply discarding data. -/
def mhReduce (p : Precision) (e : GeneEntry) : MhResult :=
  match p with
  | Precision.gene => MhResult.sym e.gene
  | Precision.allele => MhResult.sym e.render
  | Precision.protein =>
    if e.tiers.length ≤ 2 then MhResult.sym e.render
    else
      MhResult.split (GeneEntry.render (GeneEntry.mk e.gene (e.tiers.take 2) none))
        (renderRemainder (e.tiers.drop 2))

/-- Modelled from the spec and docs: the core MH-category standardisation
on one Reference Store slice. -/
def mhStandardizeCore (store : ReferenceStore) (g : String) (p : Precision) : MhResult :=
  match (resolve store g).entry? with
  | none => MhResult.failed
  | some e => mhReduce p e

/-- The primary symbol of an MH standardisation outcome, if any. -/
def MhResult.primary? : MhResult → Option String
  | MhResult.sym s => some s
  | MhResult.split a _ => some a
  | _ => none

/-- Modelled from the spec: species routing — look up the Reference Store
slice registered for a species string. -/
def lookupStore (stores : List (String × ReferenceStore)) (species : String) :
    Option ReferenceStore :=
  (stores.find? (fun q => q.1 == species)).map Prod.snd

/-- Modelled from the spec and docs: TR heuristic repair rule rewriting a
legacy TCR-prefixed symbol to the modern TR prefix. -/
def trLegacyRepair (s : String) : Option String :=
  match s.data with
  | 'T' :: 'C' :: 'R' :: rest => some ( ('T' :: 'R' :: rest).asString )
  | _ => none

/-- Modelled from the spec and docs: MH heuristic repair rule adding the
missing HLA- prefix. -/
def hlaPrefixRepair (s : String) : Option String :=
  some ("HLA-" ++ s)

/-- Split a character list into its leading alphabetic run and the rest. -/
def spanAlpha : List Char → (List Char × List Char)
  | [] => ([], [])
  | c :: cs =>
    if c.isAlpha then
      match spanAlpha cs with
      | (a, b) => (c :: a, b)
    else ([], c :: cs)

/-- Modelled from the spec and docs: MH heuristic repair rule expanding a
shorthand such as A1 or B07 into the canonical HLA form with the allele
group zero-padded to two digits, e.g. A1 becomes HLA-A*01. -/
def mhShorthandRepair (s : String) : Option String :=
  match spanAlpha s.data with
  | (letters, digits) =>
    if letters.isEmpty || digits.isEmpty || !(digits.all Char.isDigit) then none
    else
      some ("HLA-" ++ letters.asString ++ "*" ++
        (if digits.length == 1 then "0" ++ digits.asString else digits.asString))

/-- Modelled from the spec and reference-data notes: a sample of the
homosapiens TR Reference Store entries (IMGT gene names, allele numbers
and functionality leaves) sufficient for the documented scenarios. -/
def hsTrEntries : List GeneEntry := [
  GeneEntry.mk "TRAV25" [] none,
  GeneEntry.mk "TRAV25" ["01"] (some "F"),
  GeneEntry.mk "TRBV13" [] none,
  GeneEntry.mk "TRBV13" ["01"] (some "F"),
  GeneEntry.mk "TRBV13" ["02"] (some "F"),
  GeneEntry.mk "TRBJ1-5" [] none,
  GeneEntry.mk "TRBJ1-5" ["01"] (some "F"),
  GeneEntry.mk "TRBJ2-6" [] none,
  GeneEntry.mk "TRBJ2-6" ["01"] (some "F"),
  GeneEntry.mk "TRBJ2-4" [] none,
  GeneEntry.mk "TRBJ2-4" ["01"] (some "F"),
  GeneEntry.mk "TRBV1" [] none,
  GeneEntry.mk "TRBV1" ["01"] (some "P"),
  GeneEntry.mk "TRBV28" [] none,
  GeneEntry.mk "TRBV28" ["01"] (some "F"),
  GeneEntry.mk "TRBV12-3" [] none,
  GeneEntry.mk "TRBV12-3" ["01"] (some "F"),
  GeneEntry.mk "TRBV12-4" [] none,
  GeneEntry.mk "TRBV12-4" ["01"] (some "F")
]

/-- Modelled from the spec and HGNC notes: sample homosapiens TR synonym
map, with the ambiguous deprecated symbol TCRBV12S1 preserved as a
multi-candidate entry. -/
def hsTrSynonyms : List (String × List String) := [
  ("TCRAV32S1", ["TRAV25"]),
  ("TCRBV28S1", ["TRBV28"]),
  ("TCRBV12S1", ["TRBV12-3", "TRBV12-4"])
]

/-- Modelled from the spec: the homosapiens TR Reference Store slice. -/
def hsTrStore : ReferenceStore :=
  ReferenceStore.mk hsTrEntries hsTrSynonyms [trLegacyRepair]

/-- Modelled from the spec and reference-data notes: the musmusculus TR
Reference Store slice (no deprecated-name source is available for mouse). -/
def mmTrStore : ReferenceStore :=
  ReferenceStore.mk
    [GeneEntry.mk "TRAJ12" [] none, GeneEntry.mk "TRAJ12" ["01"] (some "F")]
    []
    [trLegacyRepair]

/-- Modelled from the spec: the TR category's registered species slices. -/
def trStores : List (String × ReferenceStore) :=
  [("homosapiens", hsTrStore), ("musmusculus", mmTrStore)]

/-- Modelled from the spec and reference-data notes: a sample of the
homosapiens MH (HLA) Reference Store — the hierarchical allele tree is
prefix-closed, every prefix node being its own entry, with empty
functionality leaves. -/
def hsMhEntries : List GeneEntry := [
  GeneEntry.mk "HLA-A" [] none,
  GeneEntry.mk "HLA-A" ["01"] none,
  GeneEntry.mk "HLA-A" ["01", "01"] none,
  GeneEntry.mk "HLA-B" [] none,
  GeneEntry.mk "HLA-B" ["07"] none,
  GeneEntry.mk "HLA-B" ["07", "02"] none,
  GeneEntry.mk "HLA-B" ["07", "02", "01"] none,
  GeneEntry.mk "HLA-B" ["07", "02", "01", "01"] none,
  GeneEntry.mk "HLA-DRA" [] none,
  GeneEntry.mk "HLA-DRA" ["01"] none,
  GeneEntry.mk "HLA-DRA" ["01", "01"] none,
  GeneEntry.mk "HLA-DRA" ["01", "01", "01"] none,
  GeneEntry.mk "HLA-DRB9" [] none
]

/-- Modelled from the spec: the homosapiens MH Reference Store slice. -/
def hsMhStore : ReferenceStore :=
  ReferenceStore.mk hsMhEntries [("HLA-DR1BL", ["HLA-DRB9"])]
    [hlaPrefixRepair, mhShorthandRepair]

/-- Modelled from the spec: the MH category's registered species slices. -/
def mhStores : List (String × ReferenceStore) :=
  [("homosapiens", hsMhStore)]

/-- Modelled from the docs: tidytcells.tr.standardize — unsupported
species pass the input through unchanged; otherwise the core resolver
runs on the species' Reference Store slice. -/
def trStandardize (species g : String) (enforceFunctional : Bool) (p : Precision) :
    Option String :=
  match lookupStore trStores species with
  | none => some g
  | some store => trStandardizeCore store g enforceFunctional p

/-- Modelled from the docs: tidytcells.tr.standardise, the documented
alias of trStandardize. -/
def trStandardise (species g : String) (enforceFunctional : Bool) (p : Precision) :
    Option String :=
  trStandardize species g enforceFunctional p

/-- Modelled from the docs: tidytcells.mh.standardize — unsupported
species echo the input back unchanged; otherwise the core resolver runs
on the species' Reference Store slice. -/
def mhStandardize (species g : String) (p : Precision) : MhResult :=
  match lookupStore mhStores species with
  | none => MhResult.echoed g
  | some store => mhStandardizeCore store g p

/-- Modelled from the docs: tidytcells.mh.standardise, the documented
alias of mhStandardize. -/
def mhStandardise (species g : String) (p : Precision) : MhResult :=
  mhStandardize species g p

/-- Modelled from the docs: mh.standardize with its documented default
arguments — species defaults to homosapiens and precision to the full
allele level. -/
def mhStandardizeDefault (g : String) : MhResult :=
  mhStandardize "homosapiens" g Precision.allele

/-- A string is a valid canonical symbol when some Reference Store entry
renders to it. -/
@[reducible]
def validSym (store : ReferenceStore) (s : String) : Prop :=
  ∃ e ∈ store.entries, e.render = s

/-- Store well-formedness: every canonical rendered form is a fixed point
of the Lexical Normalizer (canonical symbols are already normalized). -/
@[reducible]
def normFixed (store : ReferenceStore) : Prop :=
  ∀ e ∈ store.entries, lexNormalize e.render = e.render

/-- Store well-formedness: distinct entries render to distinct canonical
strings (the Reference Store stores canonical names uniquely). -/
@[reducible]
def renderInjectiveOn (store : ReferenceStore) : Prop :=
  ∀ e1 ∈ store.entries, ∀ e2 ∈ store.entries, e1.render = e2.render → e1 = e2

/-- Store well-formedness: the hierarchical allele tree is prefix-closed —
every truncation of an entry's tier list is itself an entry for the same
gene (every tree node exists at every level along a path). -/
@[reducible]
def prefixClosed (store : ReferenceStore) : Prop :=
  ∀ e ∈ store.entries, ∀ k ∈ List.range (e.tiers.length + 1),
    ∃ e2 ∈ store.entries, e2.gene = e.gene ∧ e2.tiers = e.tiers.take k

/-- Combined Reference Store well-formedness. -/
@[reducible]
def wellFormed (store : ReferenceStore) : Prop :=
  normFixed store ∧ renderInjectiveOn store ∧ prefixClosed store

theorem findExact_eq_some {store : ReferenceStore} {s : String} {e : GeneEntry}
    (h : findExact store s = some e) : e ∈ store.entries ∧ e.render = s := by
  unfold findExact at h
  have hp : (e.render == s) = true := by simpa using List.find?_some h
  exact ⟨List.mem_of_find?_eq_some h, eq_of_beq hp⟩

theorem findExact_of_mem (store : ReferenceStore) (s : String)
    (h : ∃ e ∈ store.entries, e.render = s) :
    ∃ e2, findExact store s = some e2 ∧ e2 ∈ store.entries ∧ e2.render = s := by
  obtain ⟨e, he, hr⟩ := h
  have hs : (store.entries.find? (fun e => e.render == s)).isSome = true := by
    rw [List.find?_isSome]
    exact ⟨e, he, by simp [hr]⟩
  obtain ⟨e2, h2⟩ := Option.isSome_iff_exists.mp hs
  have h2' : findExact store s = some e2 := h2
  exact ⟨e2, h2', (findExact_eq_some h2').1, (findExact_eq_some h2').2⟩

theorem tryRepairs_mem {store : ReferenceStore} :
    ∀ (rs : List (String → Option String)) (s : String) (e : GeneEntry),
      tryRepairs rs store s = some e → e ∈ store.entries := by
  intro rs
  induction rs with
  | nil => intro s e h; exact absurd h (by simp [tryRepairs])
  | cons r rs ih =>
    intro s e h
    unfold tryRepairs at h
    split at h
    · exact ih s e h
    · split at h
      · exact (findExact_eq_some (by rw [← Option.some_inj.mpr rfl] at h; exact h ▸ ‹findExact store _ = some _›)).1
      · exact ih s e h

theorem resolveRepairTier_mem {store : ReferenceStore} {n : String} {e : GeneEntry}
    (h : (resolveRepairTier store n).entry? = some e) : e ∈ store.entries := by
  unfold resolveRepairTier at h
  split at h
  · simp only [Resolution.entry?, Option.some_inj] at h
    subst h
    exact tryRepairs_mem _ _ _ ‹tryRepairs store.repairs store n = some _›
  · exact absurd h (by simp [Resolution.entry?])

theorem resolve_entry_mem {store : ReferenceStore} {s : String} {e : GeneEntry}
    (h : (resolve store s).entry? = some e) : e ∈ store.entries := by
  unfold resolve at h
  split at h
  · simp only [Resolution.entry?, Option.some_inj] at h
    subst h
    exact (findExact_eq_some ‹findExact store (lexNormalize s) = some _›).1
  · split at h
    · split at h
      · simp only [Resolution.entry?, Option.some_inj] at h
        subst h
        exact (findExact_eq_some ‹findExact store _ = some _›).1
      · exact resolveRepairTier_mem h
    · exact absurd h (by simp [Resolution.entry?])
    · exact resolveRepairTier_mem h

theorem resolve_exact {store : ReferenceStore} {s : String} {e : GeneEntry}
    (hn : lexNormalize s = s) (hf : findExact store s = some e) :
    resolve store s = Resolution.exactMatched e := by
  unfold resolve
  rw [hn, hf]

theorem render_congr (e1 e2 : GeneEntry) (hg : e1.gene = e2.gene)
    (ht : e1.tiers = e2.tiers) : e1.render = e2.render := by
  unfold GeneEntry.render
  rw [hg, ht]

theorem prefix_valid (store : ReferenceStore) (e : GeneEntry) (k : Nat) (f : Option String)
    (hpc : prefixClosed store) (he : e ∈ store.entries) (hk : k ≤ e.tiers.length) :
    validSym store (GeneEntry.render (GeneEntry.mk e.gene (e.tiers.take k) f)) := by
  have hk2 : k ∈ List.range (e.tiers.length + 1) := by
    rw [List.mem_range]; omega
  obtain ⟨e2, he2, hg, ht⟩ := hpc e he k hk2
  exact ⟨e2, he2, render_congr e2 (GeneEntry.mk e.gene (e.tiers.take k) f) hg ht⟩

/-- Claim C1: any input that is already a canonical symbol in the
Reference Store (and already normalized) is returned by the Resolver via
the exact-match tier, as the terminal EXACT_MATCHED state, with the input
string itself as output — whatever the synonym map and repair rules are,
so neither is consulted. -/
theorem exact_match_precedence (entries : List GeneEntry)
    (syns : List (String × List String)) (reps : List (String → Option String))
    (s : String) (hn : lexNormalize s = s)
    (hmem : ∃ e ∈ entries, e.render = s) :
    ∃ e2, resolve (ReferenceStore.mk entries syns reps) s = Resolution.exactMatched e2
      ∧ e2.render = s := by
  obtain ⟨e2, hf, _, hr⟩ := findExact_of_mem (ReferenceStore.mk entries syns reps) s hmem
  exact ⟨e2, resolve_exact hn hf, hr⟩

/-- Witness for C1 at the documented inputs: the canonical TR symbol
TRAV25 and the canonical MH symbol HLA-A resolve to themselves through
the exact-match tier. -/
theorem exact_match_precedence_witness :
    (lexNormalize "TRAV25" = "TRAV25" ∧ ∃ e ∈ hsTrEntries, e.render = "TRAV25")
    ∧ (∃ e2, resolve hsTrStore "TRAV25" = Resolution.exactMatched e2 ∧ e2.render = "TRAV25")
    ∧ (∃ e2, resolve hsMhStore "HLA-A" = Resolution.exactMatched e2 ∧ e2.render = "HLA-A") :=
  ⟨⟨by decide, by decide⟩,
   exact_match_precedence hsTrEntries hsTrSynonyms [trLegacyRepair] "TRAV25"
     (by decide) (by decide),
   exact_match_precedence hsMhEntries [("HLA-DR1BL", ["HLA-DRB9"])]
     [hlaPrefixRepair, mhShorthandRepair] "HLA-A" (by decide) (by decide)⟩

/-- Claim C2: a deprecated/alias input whose SynonymMap entry carries two
or more canonical candidates resolves to the distinct ambiguous outcome,
and the standard standardise calls return the unresolved outcome — never
one of the candidates chosen arbitrarily. -/
theorem ambiguous_synonym_unresolved (store : ReferenceStore) (s c1 c2 : String)
    (cs : List String) (ef : Bool) (p : Precision)
    (hn : lexNormalize s = s)
    (hex : findExact store s = none)
    (hsyn : lookupSyn store.synonyms s = some (c1 :: c2 :: cs)) :
    resolve store s = Resolution.ambiguousSynonym (c1 :: c2 :: cs)
    ∧ trStandardizeCore store s ef p = none
    ∧ mhStandardizeCore store s p = MhResult.failed := by
  have hres : resolve store s = Resolution.ambiguousSynonym (c1 :: c2 :: cs) := by
    unfold resolve
    rw [hn, hex, hsyn]
  refine ⟨hres, ?_, ?_⟩
  · simp only [trStandardizeCore, hres, Resolution.entry?]
  · simp only [mhStandardizeCore, hres, Resolution.entry?]

/-- Witness for C2 at the ambiguous deprecated symbol TCRBV12S1, whose
two candidates TRBV12-3 and TRBV12-4 are never chosen. -/
theorem ambiguous_synonym_unresolved_witness :
    (lexNormalize "TCRBV12S1" = "TCRBV12S1"
      ∧ findExact hsTrStore "TCRBV12S1" = none
      ∧ lookupSyn hsTrStore.synonyms "TCRBV12S1" = some ["TRBV12-3", "TRBV12-4"])
    ∧ (resolve hsTrStore "TCRBV12S1" = Resolution.ambiguousSynonym ["TRBV12-3", "TRBV12-4"]
      ∧ trStandardizeCore hsTrStore "TCRBV12S1" false Precision.allele = none
      ∧ mhStandardizeCore hsTrStore "TCRBV12S1" Precision.allele = MhResult.failed) :=
  ⟨⟨by decide, by decide, by decide⟩,
   ambiguous_synonym_unresolved hsTrStore "TCRBV12S1" "TRBV12-3" "TRBV12-4" []
     false Precision.allele (by decide) (by decide) (by decide)⟩

/-- Claim C4: a species absent from the Reference Store yields the
documented pass-through — tr.standardise echoes the input gene name as is
and mh.standardise echoes it back — and, both functions being total, no
exception is possible. -/
theorem unsupported_species_passthrough (species g : String) (ef : Bool) (p : Precision)
    (hTr : lookupStore trStores species = none)
    (hMh : lookupStore mhStores species = none) :
    trStandardize species g ef p = some g ∧ mhStandardize species g p = MhResult.echoed g := by
  unfold trStandardize mhStandardize
  rw [hTr, hMh]
  exact ⟨rfl, rfl⟩

/-- Witness for C4 at a species with no Reference Store slice. -/
theorem unsupported_species_passthrough_witness :
    (lookupStore trStores "oryctolaguscuniculus" = none
      ∧ lookupStore mhStores "oryctolaguscuniculus" = none)
    ∧ (trStandardize "oryctolaguscuniculus" "TRAV99" false Precision.allele = some "TRAV99"
      ∧ mhStandardize "oryctolaguscuniculus" "TRAV99" Precision.allele
          = MhResult.echoed "TRAV99") :=
  ⟨⟨rfl, rfl⟩,
   unsupported_species_passthrough "oryctolaguscuniculus" "TRAV99" false Precision.allele
     rfl rfl⟩

/-- Claim C6: for the MH category at protein precision, the deep allele
HLA-B*07:02:01:01 is not simply truncated — the result is split into the
protein-level primary symbol HLA-B*07:02 and the remainder :01:01
carrying the truncated allele tiers. -/
theorem mh_protein_split_hla_b :
    mhStandardize "homosapiens" "HLA-B*07:02:01:01" Precision.protein
      = MhResult.split "HLA-B*07:02" ":01:01" := by decide

/-- Claim C7: the deprecated homosapiens TR symbol TCRAV32S1 resolves
through the synonym/deprecated-name tier to the canonical TRAV25. -/
theorem tr_synonym_tier_trav25 :
    resolve hsTrStore "TCRAV32S1" = Resolution.synonymMatched (GeneEntry.mk "TRAV25" [] none)
    ∧ trStandardize "homosapiens" "TCRAV32S1" false Precision.allele = some "TRAV25" :=
  ⟨by decide, by decide⟩

/-- Claim C8: when a resolved entry fails the functional-only gate, the
enforce-functional call returns the unresolved outcome. -/
theorem enforce_functional_rejects (species g : String) (store : ReferenceStore)
    (e : GeneEntry) (p : Precision)
    (hsp : lookupStore trStores species = some store)
    (hres : (resolve store g).entry? = some e)
    (hf : functionalOk store e = false) :
    trStandardize species g true p = none := by
  simp only [trStandardize, hsp, trStandardizeCore, hres, hf]
  simp

/-- Witness for C8: TRBV1*01 is structurally valid (it standardises
without the gate) but its allele 01 is recorded non-functional, so the
enforce-functional call returns the unresolved value. -/
theorem enforce_functional_rejects_witness :
    lookupStore trStores "homosapiens" = some hsTrStore
    ∧ (resolve hsTrStore "TRBV1*01").entry? = some (GeneEntry.mk "TRBV1" ["01"] (some "P"))
    ∧ functionalOk hsTrStore (GeneEntry.mk "TRBV1" ["01"] (some "P")) = false
    ∧ trStandardize "homosapiens" "TRBV1*01" true Precision.allele = none
    ∧ trStandardize "homosapiens" "TRBV1*01" false Precision.allele = some "TRBV1*01" :=
  ⟨rfl, by decide, by decide,
   enforce_functional_rejects "homosapiens" "TRBV1*01" hsTrStore
     (GeneEntry.mk "TRBV1" ["01"] (some "P")) Precision.allele rfl (by decide) (by decide),
   by decide⟩

/-- Claim C9: the MH shorthand A1 is repaired heuristically and validated
exactly, yielding the canonical HLA-A*01, both with species homosapiens
given explicitly and with the documented defaults. -/
theorem mh_heuristic_repair_a1 :
    resolve hsMhStore "A1" = Resolution.heuristicallyRepaired (GeneEntry.mk "HLA-A" ["01"] none)
    ∧ mhStandardize "homosapiens" "A1" Precision.allele = MhResult.sym "HLA-A*01"
    ∧ mhStandardizeDefault "A1" = MhResult.sym "HLA-A*01" :=
  ⟨by decide, by decide, by decide⟩

/-- Claim C10: in every submodule, standardise and standardize are the
same operation — for all arguments the two names return identical
results. -/
theorem standardise_standardize_alias (species g : String) (ef : Bool) (p : Precision) :
    trStandardise species g ef p = trStandardize species g ef p
    ∧ mhStandardise species g p = mhStandardize species g p :=
  ⟨rfl, rfl⟩

theorem render_nil_tiers (e : GeneEntry) (h : e.tiers = []) : e.render = e.gene := by
  unfold GeneEntry.render
  rw [h]

/-- Claim C3: under a prefix-closed Reference Store, every non-unresolved
standardisation output — the TR symbol, or the primary part of an MH
result — validates against the store: some entry renders to it. Attempted
repairs that validate nothing have already been discarded by the
Resolver, which returns the unresolved outcome instead. -/
theorem validity_gate (store : ReferenceStore) (g : String) (ef : Bool) (p : Precision)
    (hpc : prefixClosed store) :
    (∀ c, trStandardizeCore store g ef p = some c → validSym store c)
    ∧ (∀ c, (mhStandardizeCore store g p).primary? = some c → validSym store c) := by
  constructor
  · intro c h
    unfold trStandardizeCore at h
    split at h
    · exact absurd h (by simp)
    · rename_i e heq
      have he : e ∈ store.entries := resolve_entry_mem heq
      split at h
      · exact absurd h (by simp)
      · have hc : (trTruncate p e).render = c := Option.some_inj.mp h
        subst hc
        cases p with
        | gene => exact prefix_valid store e 0 e.functionality hpc he (Nat.zero_le _)
        | protein => exact ⟨e, he, rfl⟩
        | allele => exact ⟨e, he, rfl⟩
  · intro c h
    unfold mhStandardizeCore at h
    split at h
    · exact absurd h (by simp [MhResult.primary?])
    · rename_i e heq
      have he : e ∈ store.entries := resolve_entry_mem heq
      cases p with
      | gene =>
        have hc : e.gene = c := by simpa [mhReduce, MhResult.primary?] using h
        subst hc
        exact prefix_valid store e 0 none hpc he (Nat.zero_le _)
      | allele =>
        have hc : e.render = c := by simpa [mhReduce, MhResult.primary?] using h
        subst hc
        exact ⟨e, he, rfl⟩
      | protein =>
        unfold mhReduce at h
        by_cases hl : e.tiers.length ≤ 2
        · rw [if_pos hl] at h
          have hc : e.render = c := by simpa [MhResult.primary?] using h
          subst hc
          exact ⟨e, he, rfl⟩
        · rw [if_neg hl] at h
          have hc : GeneEntry.render (GeneEntry.mk e.gene (e.tiers.take 2) none) = c := by
            simpa [MhResult.primary?] using h
          subst hc
          exact prefix_valid store e 2 none hpc he (by omega)

/-- Witness for C3 on the homosapiens TR store, together with the
documented unresolved examples: not-a-real-gene and unknown both map to
the none outcome. -/
theorem validity_gate_witness :
    prefixClosed hsTrStore
    ∧ (∀ c, trStandardizeCore hsTrStore "TRBV13*01" false Precision.allele = some c →
        validSym hsTrStore c)
    ∧ trStandardize "homosapiens" "not-a-real-gene" false Precision.allele = none
    ∧ trStandardize "homosapiens" "unknown" false Precision.allele = none :=
  ⟨by decide,
   (validity_gate hsTrStore "TRBV13*01" false Precision.allele (by decide)).1,
   by decide, by decide⟩

theorem functionalOk_gene_level (store : ReferenceStore) (e et : GeneEntry)
    (he : e ∈ store.entries) (hg : et.gene = e.gene) (ht : et.tiers = [])
    (hf : functionalOk store e = true) : functionalOk store et = true := by
  unfold functionalOk at hf ⊢
  rw [if_pos (by rw [ht]; rfl : et.tiers.isEmpty = true), hg]
  cases htier : e.tiers with
  | nil =>
    rw [if_pos (by rw [htier]; rfl : e.tiers.isEmpty = true)] at hf
    exact hf
  | cons t ts =>
    rw [if_neg (by rw [htier]; simp : ¬ e.tiers.isEmpty = true)] at hf
    rw [List.any_eq_true]
    exact ⟨e, he, by simp [htier, hf]⟩

theorem lookupStore_mem {stores : List (String × ReferenceStore)} {species : String}
    {store : ReferenceStore} (h : lookupStore stores species = some store) :
    ∃ q ∈ stores, q.2 = store := by
  unfold lookupStore at h
  cases hf : stores.find? (fun q => q.1 == species) with
  | none => rw [hf] at h; exact absurd h (by simp)
  | some q =>
    rw [hf] at h
    exact ⟨q, List.mem_of_find?_eq_some hf, Option.some_inj.mp h⟩

theorem trCore_fix (store : ReferenceStore) (et : GeneEntry) (ef : Bool) (p : Precision)
    (hnf : normFixed store) (hinj : renderInjectiveOn store)
    (hmem : et ∈ store.entries)
    (hgate : (ef && !functionalOk store et) = false)
    (htrunc : (trTruncate p et).render = et.render) :
    trStandardizeCore store et.render ef p = some et.render := by
  have hnorm : lexNormalize et.render = et.render := hnf et hmem
  obtain ⟨e2, hfind, he2, hre2⟩ := findExact_of_mem store et.render ⟨et, hmem, rfl⟩
  rw [hinj e2 he2 et hmem hre2] at hfind
  have hres : resolve store et.render = Resolution.exactMatched et :=
    resolve_exact hnorm hfind
  simp only [trStandardizeCore, hres, Resolution.entry?, hgate]
  simp [htrunc]

theorem mhCore_fix (store : ReferenceStore) (et : GeneEntry) (p : Precision)
    (hnf : normFixed store) (hinj : renderInjectiveOn store)
    (hmem : et ∈ store.entries)
    (hred : mhReduce p et = MhResult.sym et.render) :
    mhStandardizeCore store et.render p = MhResult.sym et.render := by
  have hnorm : lexNormalize et.render = et.render := hnf et hmem
  obtain ⟨e2, hfind, he2, hre2⟩ := findExact_of_mem store et.render ⟨et, hmem, rfl⟩
  rw [hinj e2 he2 et hmem hre2] at hfind
  have hres : resolve store et.render = Resolution.exactMatched et :=
    resolve_exact hnorm hfind
  simp only [mhStandardizeCore, hres, Resolution.entry?, hred]

theorem trCore_idem (store : ReferenceStore) (g c : String) (ef : Bool) (p : Precision)
    (hwf : wellFormed store)
    (h : trStandardizeCore store g ef p = some c) :
    trStandardizeCore store c ef p = some c := by
  obtain ⟨hnf, hinj, hpc⟩ := hwf
  unfold trStandardizeCore at h
  split at h
  · exact absurd h (by simp)
  · rename_i e heq
    have he : e ∈ store.entries := resolve_entry_mem heq
    split at h
    · exact absurd h (by simp)
    · rename_i hgate
      have hgate2 : (ef && !functionalOk store e) = false := by
        cases hb : (ef && !functionalOk store e) with
        | false => rfl
        | true => exact absurd hb hgate
      have hc : (trTruncate p e).render = c := Option.some_inj.mp h
      cases p with
      | gene =>
        have hc2 : c = e.gene := by rw [← hc]; rfl
        obtain ⟨et, hetmem, hetg, hett⟩ :=
          hpc e he 0 (by rw [List.mem_range]; omega)
        have hett2 : et.tiers = [] := by simpa using hett
        have hetr : et.render = c := by
          rw [render_nil_tiers et hett2, hetg, hc2]
        have hgate3 : (ef && !functionalOk store et) = false := by
          cases hef : ef with
          | false => rfl
          | true =>
            have hfo : functionalOk store e = true := by
              rw [hef] at hgate2
              simpa using hgate2
            have hfo2 := functionalOk_gene_level store e et he hetg hett2 hfo
            simp [hfo2]
        have htrunc : (trTruncate Precision.gene et).render = et.render := by
          unfold trTruncate
          rw [render_nil_tiers et hett2]
          rfl
        have := trCore_fix store et ef Precision.gene hnf hinj hetmem hgate3 htrunc
        rw [hetr] at this
        exact this
      | protein =>
        have hc2 : c = e.render := by rw [← hc]; rfl
        have := trCore_fix store e ef Precision.protein hnf hinj he hgate2 rfl
        rw [← hc2] at this
        exact this
      | allele =>
        have hc2 : c = e.render := by rw [← hc]; rfl
        have := trCore_fix store e ef Precision.allele hnf hinj he hgate2 rfl
        rw [← hc2] at this
        exact this

theorem mhCore_idem (store : ReferenceStore) (g c : String) (p : Precision)
    (hwf : wellFormed store)
    (h : mhStandardizeCore store g p = MhResult.sym c) :
    mhStandardizeCore store c p = MhResult.sym c := by
  obtain ⟨hnf, hinj, hpc⟩ := hwf
  unfold mhStandardizeCore at h
  split at h
  · exact absurd h (by simp)
  · rename_i e heq
    have he : e ∈ store.entries := resolve_entry_mem heq
    cases p with
    | gene =>
      have hc : e.gene = c := by simpa [mhReduce] using h
      obtain ⟨et, hetmem, hetg, hett⟩ :=
        hpc e he 0 (by rw [List.mem_range]; omega)
      have hett2 : et.tiers = [] := by simpa using hett
      have hetr : et.render = c := by
        rw [render_nil_tiers et hett2, hetg, hc]
      have hred : mhReduce Precision.gene et = MhResult.sym et.render := by
        unfold mhReduce
        rw [render_nil_tiers et hett2]
      have := mhCore_fix store et Precision.gene hnf hinj hetmem hred
      rw [hetr] at this
      exact this
    | allele =>
      have hc : e.render = c := by simpa [mhReduce] using h
      have := mhCore_fix store e Precision.allele hnf hinj he rfl
      rw [hc] at this
      exact this
    | protein =>
      unfold mhReduce at h
      by_cases hl : e.tiers.length ≤ 2
      · rw [if_pos hl] at h
        have hc : e.render = c := by simpa using h
        have hred : mhReduce Precision.protein e = MhResult.sym e.render := by
          unfold mhReduce
          rw [if_pos hl]
        have := mhCore_fix store e Precision.protein hnf hinj he hred
        rw [hc] at this
        exact this
      · rw [if_neg hl] at h
        exact absurd h (by simp)

/-- Claim C5: idempotence — under well-formed Reference Stores, any input
that a standardise call resolves to a canonical symbol c maps c back to
itself under the same species, category and options; this covers the TR
category for every option combination, and the MH category whenever the
outcome is a plain canonical symbol. -/
theorem standardize_idempotent (species g c : String) (ef : Bool) (p : Precision)
    (hwfTr : ∀ q ∈ trStores, wellFormed q.2)
    (hwfMh : ∀ q ∈ mhStores, wellFormed q.2) :
    (trStandardize species g ef p = some c → trStandardize species c ef p = some c)
    ∧ (mhStandardize species g p = MhResult.sym c →
        mhStandardize species c p = MhResult.sym c) := by
  constructor
  · intro h
    unfold trStandardize at h ⊢
    cases hsp : lookupStore trStores species with
    | none => rfl
    | some store =>
      rw [hsp] at h
      obtain ⟨q, hq, hq2⟩ := lookupStore_mem hsp
      have hst : wellFormed store := by rw [← hq2]; exact hwfTr q hq
      exact trCore_idem store g c ef p hst h
  · intro h
    unfold mhStandardize at h ⊢
    cases hsp : lookupStore mhStores species with
    | none =>
      rw [hsp] at h
      exact absurd h (by simp)
    | some store =>
      rw [hsp] at h
      obtain ⟨q, hq, hq2⟩ := lookupStore_mem hsp
      have hst : wellFormed store := by rw [← hq2]; exact hwfMh q hq
      exact mhCore_idem store g c p hst h

/-- Witness for C5: the lowercase inputs trbv13*01 and trbj2-6*01 resolve
to the canonical TRBV13*01 and TRBJ2-6*01, and those canonical symbols
map to themselves; likewise the MH shorthand A1 resolves to HLA-A*01,
which maps to itself. -/
theorem standardize_idempotent_witness :
    (∀ q ∈ trStores, wellFormed q.2)
    ∧ (∀ q ∈ mhStores, wellFormed q.2)
    ∧ trStandardize "homosapiens" "TRBV13*01" false Precision.allele = some "TRBV13*01"
    ∧ trStandardize "homosapiens" "TRBJ2-6*01" false Precision.allele = some "TRBJ2-6*01"
    ∧ mhStandardize "homosapiens" "HLA-A*01" Precision.allele = MhResult.sym "HLA-A*01" :=
  ⟨by decide, by decide,
   (standardize_idempotent "homosapiens" "trbv13*01" "TRBV13*01" false Precision.allele
     (by decide) (by decide)).1 (by decide),
   (standardize_idempotent "homosapiens" "trbj2-6*01" "TRBJ2-6*01" false Precision.allele
     (by decide) (by decide)).1 (by decide),
   (standardize_idempotent "homosapiens" "A1" "HLA-A*01" false Precision.allele
     (by decide) (by decide)).2 (by decide)⟩
